import Mathlib

/-
Verification of the Daedalus numeric core (Matrix engine and DataFrame
engine) against its specification.  The engine itself is a native
extension; its observable behaviour is modelled here from the
specification, with the repository's Python test suite
(src/tests/01_test_matrix.py, src/tests/02_test_dataframe.py) fixing the
behaviour of the Python binding layer wherever the two disagree.
Double-precision values are modelled as exact rationals; every concrete
instance used below is exactly representable.
-/

namespace Daedalus

/-- Modelled from the spec: the error kinds of the core, as they surface
at the Python interface.  The spec's abstract kinds map to Python
exception types as pinned by the test suite: InvalidArgument surfaces as
TypeError, IndexOutOfRange as IndexError, DimensionMismatch as
ValueError, EncodingConstraintViolation as RuntimeError, KeyNotFound as
ValueError or IndexError depending on the operation, and InvalidIndexKind
as IndexError or TypeError depending on the malformed locator. -/
inductive PyErr where
  | typeError
  | valueError
  | indexError
  | runtimeError
deriving DecidableEq

/-- Modelled from the spec: a dense, row-major, fixed-shape numeric
store; `data` has length `rows * cols` and `data[r*cols+c]` is the
element at `(r, c)`. -/
structure Matrix where
  rows : Nat
  cols : Nat
  data : List ℚ
deriving DecidableEq

/-- Row-major element read used throughout the model (total; out of
range reads default to 0, callers bounds-check first). -/
def Matrix.atIdx (m : Matrix) (r c : Nat) : ℚ :=
  m.data.getD (r * m.cols + c) 0

/-- The storage invariant every Matrix built by the API maintains. -/
def Matrix.Wf (m : Matrix) : Prop :=
  m.data.length = m.rows * m.cols

/-- Modelled from the spec: the Index Resolver for a single integer
index.  A negative index has `dim` added once; the result must land in
`[0, dim)`, otherwise IndexOutOfRange (Python IndexError). -/
def normalize_index (i : Int) (dim : Nat) : Except PyErr Nat :=
  let j : Int := if i < 0 then i + dim else i
  if 0 ≤ j ∧ j < dim then .ok j.toNat else .error .indexError

/-- Modelled from the spec: the Index Resolver for a half-open range.
Each explicit endpoint is independently negative-normalized, an open end
means 0 (start) or `dim` (stop); fails IndexOutOfRange unless
`0 ≤ start ≤ stop ≤ dim` after normalization. -/
def normalize_range (start stop : Option Int) (dim : Nat) :
    Except PyErr (Nat × Nat) :=
  let s : Int := match start with
    | none => 0
    | some i => if i < 0 then i + dim else i
  let e : Int := match stop with
    | none => dim
    | some i => if i < 0 then i + dim else i
  if 0 ≤ s ∧ s ≤ e ∧ e ≤ dim then .ok (s.toNat, e.toNat)
  else .error .indexError

/-- Modelled from the spec: dimensioned construction, zero-filled;
negative dimensions fail InvalidArgument (Python TypeError per
src/tests/01_test_matrix.py). -/
def Matrix.construct (r c : Int) : Except PyErr Matrix :=
  if r < 0 ∨ c < 0 then .error .typeError
  else .ok ⟨r.toNat, c.toNat, List.replicate (r.toNat * c.toNat) 0⟩

/-- Modelled from the spec: element read, each coordinate resolved via
the Index Resolver against its dimension. -/
def Matrix.get (m : Matrix) (r c : Int) : Except PyErr ℚ := do
  let i ← normalize_index r m.rows
  let j ← normalize_index c m.cols
  return m.atIdx i j

/-- Modelled from the spec: element write, coordinates resolved via the
Index Resolver; the only in-place mutation on Matrix (explicit state
passing here). -/
def Matrix.set (m : Matrix) (r c : Int) (v : ℚ) : Except PyErr Matrix := do
  let i ← normalize_index r m.rows
  let j ← normalize_index c m.cols
  return ⟨m.rows, m.cols, m.data.set (i * m.cols + j) v⟩

/-- Modelled from the spec: row extraction returning a new `1 × cols`
copy.  The binding does NOT negative-normalize the row index: per the
test suite (src/tests/01_test_matrix.py, test_matrix_get_row) the C++
code throws for `idx < 0 or idx >= rows`, so `get_row(-1)` on a 3-row
matrix raises IndexError. -/
def Matrix.get_row (m : Matrix) (idx : Int) : Except PyErr Matrix :=
  if 0 ≤ idx ∧ idx < m.rows then
    .ok ⟨1, m.cols, (List.range m.cols).map (fun j => m.atIdx idx.toNat j)⟩
  else .error .indexError

/-- Modelled from the spec: element-wise addition; shapes must agree,
else DimensionMismatch (Python ValueError per the tests). -/
def Matrix.add (a b : Matrix) : Except PyErr Matrix :=
  if a.rows = b.rows ∧ a.cols = b.cols then
    .ok ⟨a.rows, a.cols, List.zipWith (· + ·) a.data b.data⟩
  else .error .valueError

/-- Modelled from the spec: element-wise subtraction; shapes must agree,
else DimensionMismatch (Python ValueError per the tests). -/
def Matrix.subtract (a b : Matrix) : Except PyErr Matrix :=
  if a.rows = b.rows ∧ a.cols = b.cols then
    .ok ⟨a.rows, a.cols, List.zipWith (· - ·) a.data b.data⟩
  else .error .valueError

/-- Modelled from the spec: scalar multiplication, always succeeds,
returns a new Matrix. -/
def Matrix.scale (m : Matrix) (k : ℚ) : Matrix :=
  ⟨m.rows, m.cols, m.data.map (· * k)⟩

/-- The inner-product loop of the matrix product: the running sum over
`k` of `a[i][k] * b[k][j]`. -/
def dotRow (a b : Matrix) (i j : Nat) : ℚ :=
  (List.range a.cols).foldl (fun s k => s + a.atIdx i k * b.atIdx k j) 0

/-- Modelled from the spec: the standard matrix product via the triple
nested sum; requires `a.cols = b.rows`, else DimensionMismatch (Python
ValueError per the tests); result shape `(a.rows, b.cols)`. -/
def Matrix.multiply (a b : Matrix) : Except PyErr Matrix :=
  if a.cols = b.rows then
    .ok ⟨a.rows, b.cols,
      (List.range (a.rows * b.cols)).map
        (fun p => dotRow a b (p / b.cols) (p % b.cols))⟩
  else .error .valueError

/-- The naive element-by-element transpose, written directly from the
spec's semantic clause: result shape `(cols, rows)` with
`result[j][i] = this[i][j]`.  This is the second definition of the
refinement pair; the tiled implementation below must coincide with it. -/
def transposeNaive (m : Matrix) : Matrix :=
  ⟨m.cols, m.rows,
    (List.range (m.cols * m.rows)).map
      (fun p => m.atIdx (p % m.rows) (p / m.rows))⟩

/-- The block start offsets `0, bs, 2*bs, ...` below `n` of the tiled
loop, i.e. the multiples of the block edge length. -/
def blockStarts (bs n : Nat) : List Nat :=
  (List.range n).filter (fun x => x % bs == 0)

/-- The intra-block index list `[start, min (start+bs) n)` of the tiled
loop. -/
def blockRange (bs n start : Nat) : List Nat :=
  List.range' start (min (start + bs) n - start)

/-- The order in which the cache-blocked traversal visits the index
space `[0, rows) × [0, cols)`: block by block, row-major within each
block. -/
def blockedPairs (bs rows cols : Nat) : List (Nat × Nat) :=
  (blockStarts bs rows).flatMap (fun ii =>
    (blockStarts bs cols).flatMap (fun jj =>
      (blockRange bs rows ii).flatMap (fun i =>
        (blockRange bs cols jj).map (fun j => (i, j)))))

/-- Modelled from the spec: the cache-blocked (tiled) transpose.  The
index space is partitioned into `bs × bs` blocks and the output buffer
is filled block by block, each visited cell `(i, j)` writing
`this[i][j]` into output position `j * rows + i`. -/
def transposeTiled (bs : Nat) (m : Matrix) : Matrix :=
  ⟨m.cols, m.rows,
    (blockedPairs bs m.rows m.cols).foldl
      (fun d p => d.set (p.2 * m.rows + p.1) (m.atIdx p.1 p.2))
      (List.replicate (m.cols * m.rows) 0)⟩

/-- Modelled from the spec: the public transpose, tiled with the spec's
example block edge length 32. -/
def Matrix.transpose (m : Matrix) : Matrix :=
  transposeTiled 32 m

/-- Modelled from the spec: one axis spec of a 2-part locator — an
integer index, a half-open range, or some other Python object (a string
in the tests) that is neither. -/
inductive IdxSpec where
  | intIdx (i : Int)
  | sliceIdx (start stop : Option Int)
  | strIdx (s : String)
deriving DecidableEq

/-- Modelled from the spec: the argument of combined element/slice
access — either a full 2-part locator or a single spec with the second
axis missing. -/
inductive IdxArg where
  | pair (r c : IdxSpec)
  | single (s : IdxSpec)
deriving DecidableEq

/-- The result of combined access: a scalar when both specs are single
indices, otherwise a fresh sub-matrix. -/
inductive GetResult where
  | val (q : ℚ)
  | sub (m : Matrix)
deriving DecidableEq

/-- Whether an axis spec is a non-index, non-range object. -/
def IdxSpec.isStr : IdxSpec → Bool
  | .strIdx _ => true
  | _ => false

/-- Resolve one axis spec to a concrete half-open interval plus a flag
recording whether it was a single index. -/
def resolveSpec (sp : IdxSpec) (dim : Nat) :
    Except PyErr (Nat × Nat × Bool) :=
  match sp with
  | .intIdx i => (normalize_index i dim).map (fun k => (k, k + 1, true))
  | .sliceIdx s e => (normalize_range s e dim).map (fun q => (q.1, q.2, false))
  | .strIdx _ => .error .typeError

/-- The resolved sub-block copy `[rs, re) × [cs, ce)` of a matrix. -/
def sliceMat (m : Matrix) (rs re cs ce : Nat) : Matrix :=
  ⟨re - rs, ce - cs,
    (List.range ((re - rs) * (ce - cs))).map
      (fun p => m.atIdx (rs + p / (ce - cs)) (cs + p % (ce - cs)))⟩

/-- Modelled from the spec: combined element/slice access.  A missing
second axis fails with Python IndexError and a non-index/non-range spec
with Python TypeError, per src/tests/01_test_matrix.py
(test_matrix_access_modification); both are the spec's InvalidIndexKind.
Otherwise both specs resolve through the Index Resolver, two single
indices yield the scalar element and any range yields a fresh sub-block
copy. -/
def Matrix.getItem (m : Matrix) (arg : IdxArg) : Except PyErr GetResult :=
  match arg with
  | .single _ => .error .indexError
  | .pair a b =>
    if a.isStr || b.isStr then .error .typeError
    else do
      let r ← resolveSpec a m.rows
      let c ← resolveSpec b m.cols
      if r.2.2 ∧ c.2.2 then return .val (m.atIdx r.1 c.1)
      else return .sub (sliceMat m r.1 r.2.1 c.1 c.2.1)

/-- Modelled from the spec: a cell value of a DataFrame column — the
columns are tagged numeric/categorical vectors, so a value is either a
number or a string. -/
inductive Value where
  | num (q : ℚ)
  | str (s : String)
deriving DecidableEq

/-- Modelled from the spec: the kind tag of a column. -/
inductive ColKind where
  | numeric
  | categorical
deriving DecidableEq

/-- Modelled from the spec: one named, typed column. -/
structure Column where
  name : String
  kind : ColKind
  values : List Value
deriving DecidableEq

/-- Modelled from the spec: an ordered collection of named columns. -/
structure DataFrame where
  columns : List Column
deriving DecidableEq

/-- Modelled from the spec: the row count, derived from any column's
length (0 if no columns). -/
def DataFrame.rowCount (df : DataFrame) : Nat :=
  match df.columns with
  | [] => 0
  | c :: _ => c.values.length

/-- The invariant that every column has the table's row count. -/
def DataFrame.Wf (df : DataFrame) : Prop :=
  ∀ c ∈ df.columns, c.values.length = df.rowCount

/-- Column lookup by name (first match in insertion order). -/
def DataFrame.findCol (df : DataFrame) (name : String) : Option Column :=
  df.columns.find? (fun c => c.name == name)

/-- Modelled from the spec: `at(rowIndex, columnName)` — the stored cell
value; an absent name fails KeyNotFound (ValueError), an out-of-range
row fails IndexOutOfRange (IndexError). -/
def DataFrame.at' (df : DataFrame) (i : Nat) (name : String) :
    Except PyErr Value :=
  match df.findCol name with
  | none => .error .valueError
  | some c =>
    if i < c.values.length then .ok (c.values.getD i (.num 0))
    else .error .indexError

/-- Modelled from the spec: `drop_column(name)` removes the column,
failing KeyNotFound (Python ValueError per
src/tests/02_test_dataframe.py) if it is absent. -/
def DataFrame.drop_column (df : DataFrame) (name : String) :
    Except PyErr DataFrame :=
  match df.findCol name with
  | none => .error .valueError
  | some _ => .ok ⟨df.columns.filter (fun c => c.name != name)⟩

/-- Modelled from the spec: `filter(columnName, predicate)` keeps, in
every column, exactly the rows where the predicate holds of the named
column's value, preserving order; an absent name fails KeyNotFound
(Python ValueError per the tests). -/
def DataFrame.filter (df : DataFrame) (name : String)
    (pred : Value → Bool) : Except PyErr DataFrame :=
  match df.findCol name with
  | none => .error .valueError
  | some col =>
    let keep := (List.range df.rowCount).filter
      (fun i => pred (col.values.getD i (.num 0)))
    .ok ⟨df.columns.map
      (fun c => ⟨c.name, c.kind, keep.map (fun i => c.values.getD i (.num 0))⟩)⟩

/-- Modelled from the spec: the per-value binary encoding — the true
label maps to 1, the false label to 0, anything else is an
EncodingConstraintViolation (Python RuntimeError per the tests). -/
def encodeVal (t f : String) (v : Value) : Except PyErr Value :=
  if v = .str t then .ok (.num 1)
  else if v = .str f then .ok (.num 0)
  else .error .runtimeError

/-- The encoding pass over a whole column, failing on the first value
that matches neither label. -/
def encodeList (t f : String) : List Value → Except PyErr (List Value)
  | [] => .ok []
  | v :: vs =>
    match encodeVal t f v, encodeList t f vs with
    | .ok w, .ok ws => .ok (w :: ws)
    | .error e, _ => .error e
    | _, .error e => .error e

/-- Modelled from the spec: `encode_binary(columnName, trueLabel,
falseLabel)`.  The whole column is translated first and the table is
only rebuilt when every value mapped cleanly, so no partial conversion
is ever observable; an absent name fails KeyNotFound (Python ValueError
per the tests) and an unmapped value fails EncodingConstraintViolation
(Python RuntimeError).  On success the column kind becomes numeric. -/
def DataFrame.encode_binary (df : DataFrame) (name t f : String) :
    Except PyErr DataFrame :=
  match df.findCol name with
  | none => .error .valueError
  | some col =>
    match encodeList t f col.values with
    | .error e => .error e
    | .ok vs => .ok ⟨df.columns.map
        (fun c => if c.name = name then ⟨c.name, .numeric, vs⟩ else c)⟩

/-- The in-place view of `encode_binary`: the mutated table on success,
the untouched original on failure. -/
def DataFrame.encodeBinaryInPlace (df : DataFrame) (name t f : String) :
    Except PyErr Unit × DataFrame :=
  match df.encode_binary name t f with
  | .ok df2 => (.ok (), df2)
  | .error e => (.error e, df)

/-- Numeric extraction of one cell value; a categorical value is not
numeric and fails (surfaced as Python TypeError). -/
def toNum (v : Value) : Except PyErr ℚ :=
  match v with
  | .num q => .ok q
  | .str _ => .error .typeError

/-- Numeric extraction of a whole column. -/
def colNums : List Value → Except PyErr (List ℚ)
  | [] => .ok []
  | v :: vs =>
    match toNum v, colNums vs with
    | .ok q, .ok qs => .ok (q :: qs)
    | .error e, _ => .error e
    | _, .error e => .error e

/-- Look up every referenced column, in order; an absent name fails
KeyNotFound, which `to_matrix` surfaces as Python IndexError per
src/tests/02_test_dataframe.py. -/
def lookupCols (df : DataFrame) : List String → Except PyErr (List Column)
  | [] => .ok []
  | n :: ns =>
    match df.findCol n with
    | none => .error .indexError
    | some c =>
      match lookupCols df ns with
      | .ok cs => .ok (c :: cs)
      | .error e => .error e

/-- Numeric extraction of every looked-up column. -/
def allNums : List Column → Except PyErr (List (List ℚ))
  | [] => .ok []
  | c :: cs =>
    match colNums c.values, allNums cs with
    | .ok qs, .ok qss => .ok (qs :: qss)
    | .error e, _ => .error e
    | _, .error e => .error e

/-- Modelled from the spec: `to_matrix(columnNames)` builds the
`(rows, len(columnNames))` Matrix whose `(i, j)` entry is the value at
row `i` of column `columnNames[j]`; all names are resolved first, then
all values extracted as numerics. -/
def DataFrame.to_matrix (df : DataFrame) (names : List String) :
    Except PyErr Matrix :=
  match lookupCols df names with
  | .error e => .error e
  | .ok cols =>
    match allNums cols with
    | .error e => .error e
    | .ok colsQ =>
      .ok ⟨df.rowCount, names.length,
        (List.range (df.rowCount * names.length)).map
          (fun p => (colsQ.getD (p % names.length) []).getD
            (p / names.length) 0)⟩

/-- Modelled from the spec: the shape of a Python object handed to the
`to_matrix` binding — a number, a string, or a list. -/
inductive PyObj where
  | pyNum (q : ℚ)
  | pyStr (s : String)
  | pyList (elems : List PyObj)

/-- Checks that every element of a Python list is a string. -/
def asStrList : List PyObj → Option (List String)
  | [] => some []
  | .pyStr s :: rest => (asStrList rest).map (s :: ·)
  | _ => none

/-- Modelled from the spec: the `to_matrix` binding, which rejects any
argument that is not an ordered sequence of strings with InvalidArgument
(Python TypeError per the tests) before running the conversion. -/
def DataFrame.toMatrixArg (df : DataFrame) (arg : PyObj) :
    Except PyErr Matrix :=
  match arg with
  | .pyList es =>
    match asStrList es with
    | some names => df.to_matrix names
    | none => .error .typeError
  | _ => .error .typeError

/-- Modelled from the spec: the backing stores of all live matrices, for
reasoning about aliasing.  Each matrix owns one array; array `i` belongs
to the matrix allocated `i`-th. -/
structure Store where
  mats : List (List ℚ)
deriving DecidableEq

/-- A reference to one allocated matrix: its array id and its shape. -/
structure MatRef where
  id : Nat
  rows : Nat
  cols : Nat
deriving DecidableEq

/-- The matrix value a reference denotes in a store. -/
def Store.matOf (s : Store) (r : MatRef) : Matrix :=
  ⟨r.rows, r.cols, s.mats.getD r.id []⟩

/-- Allocation of a new backing array: every matrix-producing operation
goes through this, so a result never shares storage with a source. -/
def Store.alloc (s : Store) (m : Matrix) : Store × MatRef :=
  (⟨s.mats ++ [m.data]⟩, ⟨s.mats.length, m.rows, m.cols⟩)

/-- In-place element write through a reference: mutates only the
referenced array. -/
def Store.heapSet (s : Store) (r : MatRef) (i j : Nat) (v : ℚ) : Store :=
  ⟨s.mats.set r.id ((s.mats.getD r.id []).set (i * r.cols + j) v)⟩

/-- Lifts a fallible matrix-producing operation into the store by
allocating the result. -/
def heapFrom (s : Store) (em : Except PyErr Matrix) :
    Except PyErr (Store × MatRef) :=
  em.map s.alloc

/-- Heap-level element-wise addition. -/
def heapAdd (s : Store) (a b : MatRef) : Except PyErr (Store × MatRef) :=
  heapFrom s (Matrix.add (s.matOf a) (s.matOf b))

/-- Heap-level element-wise subtraction. -/
def heapSubtract (s : Store) (a b : MatRef) : Except PyErr (Store × MatRef) :=
  heapFrom s (Matrix.subtract (s.matOf a) (s.matOf b))

/-- Heap-level scalar multiplication. -/
def heapScale (s : Store) (a : MatRef) (k : ℚ) : Store × MatRef :=
  s.alloc ((s.matOf a).scale k)

/-- Heap-level matrix product. -/
def heapMultiply (s : Store) (a b : MatRef) : Except PyErr (Store × MatRef) :=
  heapFrom s (Matrix.multiply (s.matOf a) (s.matOf b))

/-- Heap-level transpose. -/
def heapTranspose (s : Store) (a : MatRef) : Store × MatRef :=
  s.alloc ((s.matOf a).transpose)

/-- Heap-level row extraction. -/
def heapGetRow (s : Store) (a : MatRef) (idx : Int) :
    Except PyErr (Store × MatRef) :=
  heapFrom s ((s.matOf a).get_row idx)

/-- Heap-level combined element/slice access: a sub-block allocates a
fresh array, a scalar allocates nothing. -/
def heapGetItem (s : Store) (a : MatRef) (arg : IdxArg) :
    Except PyErr (Store × (MatRef ⊕ ℚ)) :=
  match (s.matOf a).getItem arg with
  | .error e => .error e
  | .ok (.val q) => .ok (s, .inr q)
  | .ok (.sub m) => .ok ((s.alloc m).1, .inl (s.alloc m).2)

/-- The frame property a matrix-producing operation must satisfy: the
result's backing array is fresh, every pre-existing array (in
particular every source) is unchanged by the operation, and mutating
the result afterwards changes no pre-existing array. -/
def FrameOK (s s2 : Store) (r : MatRef) : Prop :=
  r.id = s.mats.length ∧
  (∀ i, i < s.mats.length → s2.mats.getD i [] = s.mats.getD i []) ∧
  (∀ ri ci v i, i < s.mats.length →
    (s2.heapSet r ri ci v).mats.getD i [] = s2.mats.getD i [])

lemma encode_mod (R i j : Nat) (hi : i < R) : (j * R + i) % R = i := by
  rw [Nat.add_comm, Nat.mul_comm j R, Nat.add_mul_mod_self_left,
    Nat.mod_eq_of_lt hi]

lemma encode_div (R i j : Nat) (hi : i < R) : (j * R + i) / R = j := by
  have hR : 0 < R := Nat.lt_of_le_of_lt (Nat.zero_le i) hi
  rw [Nat.add_comm, Nat.mul_comm j R, Nat.add_mul_div_left _ _ hR,
    Nat.div_eq_of_lt hi, Nat.zero_add]

lemma foldl_set_length (f : Nat → Nat → ℚ) (R : Nat) :
    ∀ (ps : List (Nat × Nat)) (d : List ℚ),
      (ps.foldl (fun d p => d.set (p.2 * R + p.1) (f p.1 p.2)) d).length =
        d.length := by
  intro ps
  induction ps with
  | nil => intro d; rfl
  | cons hd tl ih =>
    intro d
    rw [List.foldl_cons, ih]
    exact List.length_set ..

lemma foldl_set_getElem (R : Nat) (f : Nat → Nat → ℚ) :
    ∀ (ps : List (Nat × Nat)) (d : List ℚ) (q : Nat),
      (∀ p ∈ ps, p.1 < R) →
      (ps.foldl (fun d p => d.set (p.2 * R + p.1) (f p.1 p.2)) d)[q]? =
        if ∃ p ∈ ps, p.2 * R + p.1 = q then
          (if q < d.length then some (f (q % R) (q / R)) else none)
        else d[q]? := by
  intro ps
  induction ps with
  | nil =>
    intro d q _
    simp
  | cons hd tl ih =>
    intro d q hbound
    have hhd : hd.1 < R := hbound hd (List.mem_cons_self hd tl)
    have htl : ∀ p ∈ tl, p.1 < R := fun p hp => hbound p (List.mem_cons_of_mem hd hp)
    rw [List.foldl_cons, ih _ _ htl]
    by_cases hc : ∃ p ∈ tl, p.2 * R + p.1 = q
    · rw [if_pos hc]
      have hcov : ∃ p ∈ hd :: tl, p.2 * R + p.1 = q := by
        obtain ⟨p, hp, he⟩ := hc
        exact ⟨p, List.mem_cons_of_mem hd hp, he⟩
      rw [if_pos hcov, List.length_set]
    · rw [if_neg hc]
      by_cases hq : hd.2 * R + hd.1 = q
      · have hcov : ∃ p ∈ hd :: tl, p.2 * R + p.1 = q :=
          ⟨hd, List.mem_cons_self hd tl, hq⟩
        rw [if_pos hcov]
        subst hq
        by_cases hlen : hd.2 * R + hd.1 < d.length
        · rw [if_pos hlen, List.getElem?_set_self hlen,
            encode_mod R hd.1 hd.2 hhd, encode_div R hd.1 hd.2 hhd]
        · rw [if_neg hlen,
            List.set_eq_of_length_le (Nat.le_of_not_lt hlen),
            List.getElem?_eq_none (Nat.le_of_not_lt hlen)]
      · have hnc : ¬ ∃ p ∈ hd :: tl, p.2 * R + p.1 = q := by
          rintro ⟨p, hp, he⟩
          rcases List.mem_cons.mp hp with h | h
          · exact hq (h ▸ he)
          · exact hc ⟨p, h, he⟩
        rw [if_neg hnc, List.getElem?_set_ne hq]

lemma mem_blockStarts (bs n x : Nat) (hx : x < n) :
    bs * (x / bs) ∈ blockStarts bs n := by
  unfold blockStarts
  rw [List.mem_filter, List.mem_range]
  exact ⟨Nat.lt_of_le_of_lt (Nat.mul_div_le x bs) hx,
    by simp [Nat.mul_mod_right]⟩

lemma mem_blockRange (bs n x : Nat) (hbs : 0 < bs) (hx : x < n) :
    x ∈ blockRange bs n (bs * (x / bs)) := by
  unfold blockRange
  rw [List.mem_range']
  have h1 : bs * (x / bs) ≤ x := Nat.mul_div_le x bs
  have h2 : x < bs * (x / bs) + bs := by
    have hd := Nat.div_add_mod x bs
    have hm := Nat.mod_lt x hbs
    omega
  exact ⟨x - bs * (x / bs), by omega, by omega⟩

lemma blockRange_lt (bs n start x : Nat) (hx : x ∈ blockRange bs n start) :
    x < n := by
  unfold blockRange at hx
  rw [List.mem_range'] at hx
  obtain ⟨k, hk, rfl⟩ := hx
  omega

lemma mem_blockedPairs (bs R C i j : Nat) (hbs : 0 < bs)
    (hi : i < R) (hj : j < C) : (i, j) ∈ blockedPairs bs R C := by
  unfold blockedPairs
  refine List.mem_flatMap.mpr ⟨bs * (i / bs), mem_blockStarts bs R i hi, ?_⟩
  refine List.mem_flatMap.mpr ⟨bs * (j / bs), mem_blockStarts bs C j hj, ?_⟩
  refine List.mem_flatMap.mpr ⟨i, mem_blockRange bs R i hbs hi, ?_⟩
  exact List.mem_map.mpr ⟨j, mem_blockRange bs C j hbs hj, rfl⟩

lemma blockedPairs_lt (bs R C : Nat) :
    ∀ p ∈ blockedPairs bs R C, p.1 < R ∧ p.2 < C := by
  intro p hp
  unfold blockedPairs at hp
  rw [List.mem_flatMap] at hp
  obtain ⟨ii, _, hp⟩ := hp
  rw [List.mem_flatMap] at hp
  obtain ⟨jj, _, hp⟩ := hp
  rw [List.mem_flatMap] at hp
  obtain ⟨i, hi, hp⟩ := hp
  rw [List.mem_map] at hp
  obtain ⟨j, hj, rfl⟩ := hp
  exact ⟨blockRange_lt _ _ _ _ hi, blockRange_lt _ _ _ _ hj⟩

lemma transposeTiled_data_length (bs : Nat) (m : Matrix) :
    (transposeTiled bs m).data.length = m.cols * m.rows := by
  unfold transposeTiled
  rw [foldl_set_length, List.length_replicate]

lemma transposeNaive_data_length (m : Matrix) :
    (transposeNaive m).data.length = m.cols * m.rows := by
  unfold transposeNaive
  rw [List.length_map, List.length_range]

lemma transposeNaive_data_getElem (m : Matrix) (q : Nat)
    (hq : q < m.cols * m.rows) :
    (transposeNaive m).data[q]? = some (m.atIdx (q % m.rows) (q / m.rows)) := by
  unfold transposeNaive
  rw [List.getElem?_map, List.getElem?_range hq]
  rfl

lemma transposeTiled_data_getElem (bs : Nat) (hbs : 0 < bs) (m : Matrix)
    (q : Nat) (hq : q < m.cols * m.rows) :
    (transposeTiled bs m).data[q]? =
      some (m.atIdx (q % m.rows) (q / m.rows)) := by
  have hR : 0 < m.rows := by
    rcases Nat.eq_zero_or_pos m.rows with h | h
    · rw [h, Nat.mul_zero] at hq; exact absurd hq (Nat.not_lt_zero q)
    · exact h
  unfold transposeTiled
  rw [foldl_set_getElem m.rows m.atIdx _ _ _
    (fun p hp => (blockedPairs_lt bs m.rows m.cols p hp).1)]
  have hcov : ∃ p ∈ blockedPairs bs m.rows m.cols,
      p.2 * m.rows + p.1 = q := by
    refine ⟨(q % m.rows, q / m.rows),
      mem_blockedPairs bs m.rows m.cols _ _ hbs (Nat.mod_lt q hR)
        ((Nat.div_lt_iff_lt_mul hR).mpr hq), ?_⟩
    show (q / m.rows) * m.rows + q % m.rows = q
    rw [Nat.mul_comm]
    exact Nat.div_add_mod q m.rows
  rw [if_pos hcov, List.length_replicate, if_pos hq]

lemma transposeTiled_eq_naive (bs : Nat) (hbs : 0 < bs) (m : Matrix) :
    transposeTiled bs m = transposeNaive m := by
  have hdata : (transposeTiled bs m).data = (transposeNaive m).data := by
    apply List.ext_getElem?
    intro q
    by_cases hq : q < m.cols * m.rows
    · rw [transposeTiled_data_getElem bs hbs m q hq,
        transposeNaive_data_getElem m q hq]
    · rw [List.getElem?_eq_none
        (le_of_not_lt (hq ∘ (transposeTiled_data_length bs m ▸ id))),
        List.getElem?_eq_none
        (le_of_not_lt (hq ∘ (transposeNaive_data_length m ▸ id)))]
  have h1 : transposeTiled bs m =
      Matrix.mk m.cols m.rows (transposeTiled bs m).data := rfl
  have h2 : transposeNaive m =
      Matrix.mk m.cols m.rows (transposeNaive m).data := rfl
  rw [h1, h2, hdata]

lemma transpose_eq_naive (m : Matrix) : m.transpose = transposeNaive m :=
  transposeTiled_eq_naive 32 (by norm_num) m

lemma transposeNaive_atIdx (m : Matrix) (i j : Nat)
    (hi : i < m.rows) (hj : j < m.cols) :
    (transposeNaive m).atIdx j i = m.atIdx i j := by
  have hq : j * m.rows + i < m.cols * m.rows := by
    have h1 : j * m.rows + i < (j + 1) * m.rows := by
      rw [Nat.succ_mul]; omega
    have h2 : (j + 1) * m.rows ≤ m.cols * m.rows :=
      Nat.mul_le_mul_right _ hj
    omega
  show (transposeNaive m).data.getD (j * (transposeNaive m).cols + i) 0 = _
  have hc : (transposeNaive m).cols = m.rows := rfl
  rw [hc, List.getD_eq_getElem?_getD, transposeNaive_data_getElem m _ hq,
    encode_mod m.rows i j hi, encode_div m.rows i j hi]
  rfl

lemma transposeNaive_involution (m : Matrix) (h : m.Wf) :
    transposeNaive (transposeNaive m) = m := by
  have hdata : (transposeNaive (transposeNaive m)).data = m.data := by
    apply List.ext_getElem?
    intro q
    by_cases hq : q < m.rows * m.cols
    · have hC : 0 < m.cols := by
        rcases Nat.eq_zero_or_pos m.cols with hc | hc
        · rw [hc, Nat.mul_zero] at hq; exact absurd hq (Nat.not_lt_zero q)
        · exact hc
      have hq2 : q < (transposeNaive m).cols * (transposeNaive m).rows := hq
      rw [transposeNaive_data_getElem (transposeNaive m) q hq2]
      have ha : q % m.cols < m.cols := Nat.mod_lt q hC
      have hb : q / m.cols < m.rows := (Nat.div_lt_iff_lt_mul hC).mpr hq
      have hinner : (transposeNaive m).atIdx (q % m.cols) (q / m.cols) =
          m.atIdx (q / m.cols) (q % m.cols) :=
        transposeNaive_atIdx m (q / m.cols) (q % m.cols) hb ha
      show some ((transposeNaive m).atIdx (q % m.cols) (q / m.cols)) =
        m.data[q]?
      rw [hinner]
      unfold Matrix.atIdx
      have henc : q / m.cols * m.cols + q % m.cols = q := by
        rw [Nat.mul_comm]
        exact Nat.div_add_mod q m.cols
      have hlen : q < m.data.length := by rw [h]; exact hq
      rw [henc, List.getD_eq_getElem?_getD, List.getElem?_eq_getElem hlen]
      rfl
    · have hl1 : (transposeNaive (transposeNaive m)).data.length ≤ q := by
        have := transposeNaive_data_length (transposeNaive m)
        have h2 : (transposeNaive m).cols * (transposeNaive m).rows =
          m.rows * m.cols := rfl
        omega
      have hl2 : m.data.length ≤ q := by rw [h]; omega
      rw [List.getElem?_eq_none hl1, List.getElem?_eq_none hl2]
  have h1 : transposeNaive (transposeNaive m) =
      Matrix.mk m.rows m.cols (transposeNaive (transposeNaive m)).data := rfl
  rw [h1, hdata]

lemma foldl_add_sum (g : Nat → ℚ) :
    ∀ (n : Nat) (s : ℚ),
      (List.range n).foldl (fun acc k => acc + g k) s =
        s + ∑ k ∈ Finset.range n, g k := by
  intro n
  induction n with
  | zero => intro s; simp
  | succ n ih =>
    intro s
    rw [List.range_succ, List.foldl_append, List.foldl_cons, List.foldl_nil,
      ih, Finset.sum_range_succ, add_assoc]

lemma dotRow_eq_sum (a b : Matrix) (i j : Nat) :
    dotRow a b i j = ∑ k ∈ Finset.range a.cols, a.atIdx i k * b.atIdx k j := by
  unfold dotRow
  rw [foldl_add_sum, zero_add]

lemma mulData_atIdx (a b : Matrix) (i j : Nat)
    (hi : i < a.rows) (hj : j < b.cols) :
    (Matrix.mk a.rows b.cols
      ((List.range (a.rows * b.cols)).map
        (fun p => dotRow a b (p / b.cols) (p % b.cols)))).atIdx i j =
      dotRow a b i j := by
  have hq : i * b.cols + j < a.rows * b.cols := by
    have h1 : i * b.cols + j < (i + 1) * b.cols := by
      rw [Nat.succ_mul]; omega
    have h2 : (i + 1) * b.cols ≤ a.rows * b.cols :=
      Nat.mul_le_mul_right _ hi
    omega
  unfold Matrix.atIdx
  rw [List.getD_eq_getElem?_getD, List.getElem?_map, List.getElem?_range hq]
  show dotRow a b ((i * b.cols + j) / b.cols) ((i * b.cols + j) % b.cols) =
    dotRow a b i j
  rw [encode_mod b.cols j i hj, encode_div b.cols j i hj]

lemma normalize_index_nat (i dim : Nat) (h : i < dim) :
    normalize_index (↑i) dim = .ok i := by
  unfold normalize_index
  have h1 : ¬ ((i : Int) < 0) := by omega
  rw [if_neg h1, if_pos (by omega)]
  simp

lemma atIdx_zero_mat (r c i j : Nat) :
    (Matrix.mk r c (List.replicate (r * c) 0)).atIdx i j = 0 := by
  unfold Matrix.atIdx
  rw [List.getD_eq_getElem?_getD, List.getElem?_replicate]
  split <;> rfl

lemma alloc_frame (s : Store) (m : Matrix) :
    FrameOK s (s.alloc m).1 (s.alloc m).2 := by
  refine ⟨rfl, ?_, ?_⟩
  · intro i hi
    show (s.mats ++ [m.data]).getD i [] = s.mats.getD i []
    rw [List.getD_eq_getElem?_getD, List.getD_eq_getElem?_getD,
      List.getElem?_append_left hi]
  · intro ri ci v i hi
    show (((s.alloc m).1.mats).set (s.alloc m).2.id _).getD i [] =
      (s.alloc m).1.mats.getD i []
    rw [List.getD_eq_getElem?_getD, List.getD_eq_getElem?_getD,
      List.getElem?_set_ne (by show s.mats.length ≠ i; omega)]
    exact (List.getD_eq_getElem?_getD _ _ _).symm

lemma heapFrom_ok (s : Store) (em : Except PyErr Matrix) (p : Store × MatRef)
    (h : heapFrom s em = .ok p) : FrameOK s p.1 p.2 := by
  unfold heapFrom at h
  cases em with
  | error e => exact absurd h (by simp [Except.map])
  | ok m =>
    have hp : p = s.alloc m := by
      have : Except.ok (s.alloc m) = (Except.ok p : Except PyErr (Store × MatRef)) := h
      exact (Except.ok.inj this).symm
    rw [hp]
    exact alloc_frame s m

/-- The default column used when reading a column list positionally. -/
def defCol : Column := ⟨"", ColKind.numeric, []⟩

lemma encodeVal_error (t f : String) (v : Value) (e : PyErr)
    (h : encodeVal t f v = .error e) : e = .runtimeError := by
  unfold encodeVal at h
  split_ifs at h
  all_goals simp_all

lemma encodeList_ok (t f : String) :
    ∀ vs : List Value, (∀ v ∈ vs, v = .str t ∨ v = .str f) →
      encodeList t f vs =
        .ok (vs.map (fun v => if v = .str t then .num 1 else .num 0)) := by
  intro vs
  induction vs with
  | nil => intro _; rfl
  | cons v vs ih =>
    intro h
    have hv := h v (List.mem_cons_self v vs)
    have hvs := ih (fun w hw => h w (List.mem_cons_of_mem v hw))
    by_cases hvt : v = Value.str t
    · simp [encodeList, encodeVal, hvt, hvs]
    · have hvf : v = Value.str f := hv.resolve_left hvt
      by_cases hft : f = t
      · exact absurd (hvf.trans (by rw [hft])) hvt
      · simp [encodeList, encodeVal, hvt, hvf, hvs, hft]

lemma encodeList_err (t f : String) :
    ∀ vs : List Value, (∃ v ∈ vs, v ≠ .str t ∧ v ≠ .str f) →
      encodeList t f vs = .error .runtimeError := by
  intro vs
  induction vs with
  | nil => rintro ⟨v, hv, -⟩; exact absurd hv (List.not_mem_nil v)
  | cons v vs ih =>
    rintro ⟨w, hw, hwt, hwf⟩
    rcases List.mem_cons.mp hw with h | h
    · subst h
      have hev : encodeVal t f w = .error .runtimeError := by
        simp [encodeVal, hwt, hwf]
      cases h2 : encodeList t f vs <;> simp [encodeList, hev, h2]
    · have hrec := ih ⟨w, h, hwt, hwf⟩
      cases h2 : encodeVal t f v with
      | error e =>
        have := encodeVal_error t f v e h2
        subst this
        cases h3 : encodeList t f vs <;> simp [encodeList, h2, h3]
      | ok w2 => simp [encodeList, h2, hrec]

lemma colNums_ok :
    ∀ vs : List Value, (∀ v ∈ vs, ∃ q, v = .num q) →
      ∃ qs, colNums vs = .ok qs ∧ qs.length = vs.length ∧
        ∀ i, i < vs.length → vs.getD i (.num 0) = .num (qs.getD i 0) := by
  intro vs
  induction vs with
  | nil =>
    intro _
    exact ⟨[], rfl, rfl, fun i hi => absurd hi (by simp)⟩
  | cons v vs ih =>
    intro h
    obtain ⟨q, hq⟩ := h v (List.mem_cons_self v vs)
    obtain ⟨qs, h1, h2, h3⟩ := ih (fun w hw => h w (List.mem_cons_of_mem v hw))
    refine ⟨q :: qs, ?_, by simp [h2], ?_⟩
    · simp [colNums, hq, toNum, h1]
    · intro i hi
      cases i with
      | zero => simp [hq]
      | succ n =>
        rw [List.getD_cons_succ, List.getD_cons_succ]
        exact h3 n (by simpa using hi)

lemma lookupCols_ok (df : DataFrame) :
    ∀ names : List String, (∀ n ∈ names, ∃ c, df.findCol n = some c) →
      ∃ cols, lookupCols df names = .ok cols ∧
        cols.length = names.length ∧
        ∀ j, j < names.length →
          df.findCol (names.getD j "") = some (cols.getD j defCol) := by
  intro names
  induction names with
  | nil =>
    intro _
    exact ⟨[], rfl, rfl, fun j hj => absurd hj (by simp)⟩
  | cons n ns ih =>
    intro h
    obtain ⟨c, hc⟩ := h n (List.mem_cons_self n ns)
    obtain ⟨cols, h1, h2, h3⟩ := ih (fun w hw => h w (List.mem_cons_of_mem n hw))
    refine ⟨c :: cols, ?_, by simp [h2], ?_⟩
    · simp [lookupCols, hc, h1]
    · intro j hj
      cases j with
      | zero => simpa using hc
      | succ k =>
        rw [List.getD_cons_succ, List.getD_cons_succ]
        exact h3 k (by simpa using hj)

lemma lookupCols_err (df : DataFrame) :
    ∀ names : List String, (∃ n ∈ names, df.findCol n = none) →
      lookupCols df names = .error .indexError := by
  intro names
  induction names with
  | nil => rintro ⟨n, hn, -⟩; exact absurd hn (List.not_mem_nil n)
  | cons n ns ih =>
    rintro ⟨w, hw, hnone⟩
    rcases List.mem_cons.mp hw with h | h
    · subst h
      simp [lookupCols, hnone]
    · cases hn : df.findCol n with
      | none => simp [lookupCols, hn]
      | some c => simp [lookupCols, hn, ih ⟨w, h, hnone⟩]

lemma allNums_ok :
    ∀ cols : List Column, (∀ c ∈ cols, ∀ v ∈ c.values, ∃ q, v = .num q) →
      ∃ colsQ, allNums cols = .ok colsQ ∧ colsQ.length = cols.length ∧
        ∀ j, j < cols.length →
          ∀ i, i < (cols.getD j defCol).values.length →
            (cols.getD j defCol).values.getD i (.num 0) =
              .num ((colsQ.getD j []).getD i 0) := by
  intro cols
  induction cols with
  | nil =>
    intro _
    exact ⟨[], rfl, rfl, fun j hj => absurd hj (by simp)⟩
  | cons c cs ih =>
    intro h
    obtain ⟨qs, h1, h2, h3⟩ := colNums_ok c.values (h c (List.mem_cons_self c cs))
    obtain ⟨qss, g1, g2, g3⟩ := ih (fun w hw => h w (List.mem_cons_of_mem c hw))
    refine ⟨qs :: qss, ?_, by simp [g2], ?_⟩
    · simp [allNums, h1, g1]
    · intro j hj
      cases j with
      | zero => simpa using h3
      | succ k =>
        rw [List.getD_cons_succ, List.getD_cons_succ]
        exact g3 k (by simpa using hj)

lemma mapRange_atIdx (R C : Nat) (g : Nat → ℚ) (i j : Nat)
    (hi : i < R) (hj : j < C) :
    (Matrix.mk R C ((List.range (R * C)).map g)).atIdx i j = g (i * C + j) := by
  have hq : i * C + j < R * C := by
    have h1 : i * C + j < (i + 1) * C := by rw [Nat.succ_mul]; omega
    have h2 : (i + 1) * C ≤ R * C := Nat.mul_le_mul_right _ hi
    omega
  unfold Matrix.atIdx
  rw [List.getD_eq_getElem?_getD, List.getElem?_map, List.getElem?_range hq]
  rfl

/-- The 3x3 matrix holding 0..8 row-major, as built by
test_matrix_get_row. -/
def c1Mat : Matrix := ⟨3, 3, [0, 1, 2, 3, 4, 5, 6, 7, 8]⟩

/-- C1 counterexample: on a 3-row matrix the index -1 satisfies
`-rows ≤ -1 < rows`, yet `get_row(-1)` raises IndexError instead of
returning row 2 — the binding does not normalize negative row indices
(src/tests/01_test_matrix.py line 149 asserts this failure), so the
claim as stated is false at this input. -/
theorem C1_counterexample :
    1 ≤ c1Mat.rows ∧ -(c1Mat.rows : Int) ≤ -1 ∧
    (-1 : Int) < (c1Mat.rows : Int) ∧
    c1Mat.get_row (-1) = .error .indexError := by
  refine ⟨by decide, by decide, by decide, ?_⟩
  rfl

/-- C1 (amended): `get_row(idx)` succeeds exactly when `0 ≤ idx < rows`
(negative indices are rejected, not wrapped), returning a new `1 × cols`
Matrix equal to row `idx`; any other index, including every negative
one, fails IndexOutOfRange (Python IndexError). -/
theorem C1_get_row_amended (m : Matrix) (idx : Int) :
    (0 ≤ idx → idx < (m.rows : Int) →
      ∃ r, m.get_row idx = .ok r ∧ r.rows = 1 ∧ r.cols = m.cols ∧
        ∀ j, j < m.cols → r.atIdx 0 j = m.atIdx idx.toNat j) ∧
    (¬ (0 ≤ idx ∧ idx < (m.rows : Int)) →
      m.get_row idx = .error .indexError) := by
  constructor
  · intro h0 hlt
    refine ⟨⟨1, m.cols, (List.range m.cols).map (fun j => m.atIdx idx.toNat j)⟩,
      ?_, rfl, rfl, ?_⟩
    · unfold Matrix.get_row
      rw [if_pos ⟨h0, hlt⟩]
    · intro j hj
      show ((List.range m.cols).map
        (fun j => m.atIdx idx.toNat j)).getD (0 * m.cols + j) 0 = _
      rw [Nat.zero_mul, Nat.zero_add, List.getD_eq_getElem?_getD,
        List.getElem?_map, List.getElem?_range hj]
      rfl
  · intro h
    unfold Matrix.get_row
    rw [if_neg h]

/-- C1 witness: the amended theorem applied to the test's 3x3 matrix at
row index 1. -/
theorem C1_get_row_amended_witness :
    ∃ r, c1Mat.get_row 1 = .ok r ∧ r.rows = 1 ∧ r.cols = c1Mat.cols ∧
      ∀ j, j < c1Mat.cols → r.atIdx 0 j = c1Mat.atIdx 1 j :=
  (C1_get_row_amended c1Mat 1).1 (by decide) (by decide)

/-- C2: for every matrix and every positive block size the cache-blocked
transpose is identical to the naive element-by-element transpose (and so
is the public `transpose`, which uses block edge 32); the result has
shape `(cols, rows)` and `result[j][i] = A[i][j]` everywhere. -/
theorem C2_tiled_transpose_refines_naive (m : Matrix) (bs : Nat)
    (hbs : 0 < bs) :
    transposeTiled bs m = transposeNaive m ∧
    m.transpose = transposeNaive m ∧
    (transposeTiled bs m).rows = m.cols ∧
    (transposeTiled bs m).cols = m.rows ∧
    ∀ i j, i < m.rows → j < m.cols →
      (transposeTiled bs m).atIdx j i = m.atIdx i j := by
  refine ⟨transposeTiled_eq_naive bs hbs m, transpose_eq_naive m, rfl, rfl, ?_⟩
  intro i j hi hj
  rw [transposeTiled_eq_naive bs hbs m]
  exact transposeNaive_atIdx m i j hi hj

/-- The 2x3 matrix of test_matrix_transpose. -/
def c2Mat : Matrix := ⟨2, 3, [1, 2, 3, 4, 5, 6]⟩

/-- C2 witness: tiling with block edge 2 (which splits the 2x3 index
space into several partial blocks) agrees with the naive transpose on a
concrete matrix. -/
theorem C2_tiled_transpose_refines_naive_witness :
    transposeTiled 2 c2Mat = transposeNaive c2Mat :=
  (C2_tiled_transpose_refines_naive c2Mat 2 (by decide)).1

/-- C3: double transpose is the identity on every well-formed matrix
(shape and every value), including empty and non-square shapes. -/
theorem C3_transpose_involutive (m : Matrix) (h : m.Wf) :
    m.transpose.transpose = m := by
  rw [transpose_eq_naive m, transpose_eq_naive (transposeNaive m)]
  exact transposeNaive_involution m h

/-- C3 witness: double transpose reproduces a concrete 2x3 matrix. -/
theorem C3_transpose_involutive_witness :
    c2Mat.transpose.transpose = c2Mat :=
  C3_transpose_involutive c2Mat (by rfl)

/-- The left factor of the spec's concrete product. -/
def c4A : Matrix := ⟨2, 3, [1, 2, 3, 4, 5, 6]⟩

/-- The right factor of the spec's concrete product. -/
def c4B : Matrix := ⟨3, 2, [7, 8, 9, 10, 11, 12]⟩

/-- The spec's concrete product result. -/
def c4C : Matrix := ⟨2, 2, [58, 64, 139, 154]⟩

/-- C4: `multiply` succeeds exactly when the inner dimensions agree,
failing DimensionMismatch (Python ValueError) otherwise; the result has
shape `(rows, other.cols)` with the triple-nested-sum entries, and the
spec's concrete example `[[1,2,3],[4,5,6]] * [[7,8],[9,10],[11,12]]`
evaluates to `[[58,64],[139,154]]`. -/
theorem C4_multiply (a b : Matrix) :
    (a.cols = b.rows →
      ∃ r, a.multiply b = .ok r ∧ r.rows = a.rows ∧ r.cols = b.cols ∧
        ∀ i j, i < a.rows → j < b.cols →
          r.atIdx i j =
            ∑ k ∈ Finset.range a.cols, a.atIdx i k * b.atIdx k j) ∧
    (a.cols ≠ b.rows → a.multiply b = .error .valueError) ∧
    c4A.multiply c4B = .ok c4C := by
  refine ⟨?_, ?_, ?_⟩
  · intro h
    refine ⟨⟨a.rows, b.cols,
      (List.range (a.rows * b.cols)).map
        (fun p => dotRow a b (p / b.cols) (p % b.cols))⟩, ?_, rfl, rfl, ?_⟩
    · unfold Matrix.multiply
      rw [if_pos h]
    · intro i j hi hj
      rw [mulData_atIdx a b i j hi hj, dotRow_eq_sum]
  · intro h
    unfold Matrix.multiply
    rw [if_neg h]
  · show c4A.multiply c4B = .ok c4C
    norm_num [Matrix.multiply, c4A, c4B, c4C, dotRow, Matrix.atIdx,
      List.range_succ]

/-- C4 witness: the only hypotheses of C4 are inside its conditional
conjuncts; this discharges the success branch at the spec's concrete
factors. -/
theorem C4_multiply_witness :
    ∃ r, c4A.multiply c4B = .ok r ∧ r.rows = c4A.rows ∧ r.cols = c4B.cols ∧
      ∀ i j, i < c4A.rows → j < c4B.cols →
        r.atIdx i j =
          ∑ k ∈ Finset.range c4A.cols, c4A.atIdx i k * c4B.atIdx k j :=
  (C4_multiply c4A c4B).1 (by decide)

/-- C8: `Matrix(r, c)` with `r, c ≥ 0` (zero allowed) yields `rows = r`,
`cols = c` and every in-bounds `get(i, j) = 0`; a negative dimension
fails InvalidArgument (Python TypeError per the tests). -/
theorem C8_construct (r c : Int) :
    (0 ≤ r → 0 ≤ c →
      ∃ m, Matrix.construct r c = .ok m ∧ m.rows = r.toNat ∧
        m.cols = c.toNat ∧
        ∀ i j : Nat, i < m.rows → j < m.cols → m.get i j = .ok 0) ∧
    (r < 0 ∨ c < 0 → Matrix.construct r c = .error .typeError) := by
  constructor
  · intro hr hc
    refine ⟨⟨r.toNat, c.toNat, List.replicate (r.toNat * c.toNat) 0⟩,
      ?_, rfl, rfl, ?_⟩
    · unfold Matrix.construct
      rw [if_neg (by omega)]
    · intro i j hi hj
      have h1 := normalize_index_nat i r.toNat hi
      have h2 := normalize_index_nat j c.toNat hj
      unfold Matrix.get
      rw [h1, h2]
      show Except.ok ((Matrix.mk r.toNat c.toNat
        (List.replicate (r.toNat * c.toNat) 0)).atIdx i j) = Except.ok 0
      rw [atIdx_zero_mat]
  · intro h
    unfold Matrix.construct
    rw [if_pos h]

/-- C8 witness: a 2x3 construction with every in-bounds read zero. -/
theorem C8_construct_witness :
    ∃ m, Matrix.construct 2 3 = .ok m ∧ m.rows = (2 : Int).toNat ∧
      m.cols = (3 : Int).toNat ∧
      ∀ i j : Nat, i < m.rows → j < m.cols → m.get i j = .ok 0 :=
  (C8_construct 2 3).1 (by decide) (by decide)

/-- A zero 3x3 matrix for the locator-error instances. -/
def c9Mat : Matrix := ⟨3, 3, List.replicate 9 0⟩

/-- C9 counterexample: a locator missing its second axis raises Python
IndexError while a string axis spec raises Python TypeError
(src/tests/01_test_matrix.py lines 204-209), so the two malformed-index
cases do NOT fail with one single error kind as the claim states. -/
theorem C9_counterexample :
    c9Mat.getItem (.single (.intIdx 0)) = .error .indexError ∧
    c9Mat.getItem (.pair (.strIdx "0") (.intIdx 0)) = .error .typeError ∧
    PyErr.indexError ≠ PyErr.typeError := by
  exact ⟨rfl, rfl, by decide⟩

/-- C9 (amended): a locator missing one of the two axis specs fails with
IndexError, and a 2-part locator containing a spec that is neither an
integer nor a range fails with TypeError — two distinct error kinds at
the public interface (both are the spec's abstract InvalidIndexKind). -/
theorem C9_locator_errors (m : Matrix) (sp a b : IdxSpec) :
    m.getItem (.single sp) = .error .indexError ∧
    ((a.isStr || b.isStr) = true → m.getItem (.pair a b) = .error .typeError) := by
  constructor
  · rfl
  · intro h
    simp [Matrix.getItem, h]

/-- C9 witness: the amended theorem applied to a string row spec. -/
theorem C9_locator_errors_witness :
    c9Mat.getItem (.pair (.strIdx "0") (.intIdx 0)) = .error .typeError :=
  (C9_locator_errors c9Mat (.intIdx 0) (.strIdx "0") (.intIdx 0)).2 (by decide)

/-- C5: every matrix-producing operation (add, subtract, scale,
multiply, transpose, slice via combined indexing, get_row) allocates a
fresh backing array: the result's array id is new, every pre-existing
array — in particular every source operand's — is unchanged by the
operation, and mutating any element of the result afterwards changes no
pre-existing array. -/
theorem C5_no_aliasing :
    (∀ s a b p, heapAdd s a b = .ok p → FrameOK s p.1 p.2) ∧
    (∀ s a b p, heapSubtract s a b = .ok p → FrameOK s p.1 p.2) ∧
    (∀ s a k, FrameOK s (heapScale s a k).1 (heapScale s a k).2) ∧
    (∀ s a b p, heapMultiply s a b = .ok p → FrameOK s p.1 p.2) ∧
    (∀ s a, FrameOK s (heapTranspose s a).1 (heapTranspose s a).2) ∧
    (∀ s a idx p, heapGetRow s a idx = .ok p → FrameOK s p.1 p.2) ∧
    (∀ s a arg s2 r, heapGetItem s a arg = .ok (s2, .inl r) → FrameOK s s2 r) := by
  refine ⟨?_, ?_, ?_, ?_, ?_, ?_, ?_⟩
  · intro s a b p h
    exact heapFrom_ok s _ p h
  · intro s a b p h
    exact heapFrom_ok s _ p h
  · intro s a k
    exact alloc_frame s _
  · intro s a b p h
    exact heapFrom_ok s _ p h
  · intro s a
    exact alloc_frame s _
  · intro s a idx p h
    exact heapFrom_ok s _ p h
  · intro s a arg s2 r h
    unfold heapGetItem at h
    cases hg : (s.matOf a).getItem arg with
    | error e =>
      rw [hg] at h
      exact absurd h (by simp)
    | ok gr =>
      rw [hg] at h
      cases gr with
      | val q =>
        have h2 : ((s, Sum.inr q) : Store × (MatRef ⊕ ℚ)) = (s2, .inl r) :=
          Except.ok.inj h
        have := congrArg Prod.snd h2
        simp at this
      | sub m =>
        have h2 : (((s.alloc m).1, (Sum.inl (s.alloc m).2 : MatRef ⊕ ℚ))) =
            (s2, .inl r) := Except.ok.inj h
        have hs : (s.alloc m).1 = s2 := congrArg Prod.fst h2
        have hr : (s.alloc m).2 = r := by
          have := congrArg Prod.snd h2
          simpa using this
        rw [← hs, ← hr]
        exact alloc_frame s m

/-- A store holding two 1x1 matrices. -/
def c5Store : Store := ⟨[[1], [2]]⟩

/-- A reference to the first matrix of the two-matrix store. -/
def c5A : MatRef := ⟨0, 1, 1⟩

/-- A reference to the second matrix of the two-matrix store. -/
def c5B : MatRef := ⟨1, 1, 1⟩

/-- C5 witness: adding the two stored 1x1 matrices allocates array 2 and
leaves arrays 0 and 1 untouched, also under subsequent mutation of the
result. -/
theorem C5_no_aliasing_witness :
    FrameOK c5Store ⟨[[1], [2], [3]]⟩ ⟨2, 1, 1⟩ :=
  C5_no_aliasing.1 c5Store c5A c5B (⟨[[1], [2], [3]]⟩, ⟨2, 1, 1⟩)
    (by norm_num [heapAdd, heapFrom, Store.matOf, Matrix.add, Store.alloc,
      c5Store, c5A, c5B, Except.map])

/-- C6: `encode_binary` maps every value equal to the true label to 1
and every value equal to the false label to 0 and sets the column kind
to numeric; an absent column fails KeyNotFound (Python ValueError) and a
value matching neither label fails EncodingConstraintViolation (Python
RuntimeError), in both failure cases leaving the in-place DataFrame
completely unchanged — no partially converted column is observable. -/
theorem C6_encode_binary (df : DataFrame) (name t f : String) :
    (df.findCol name = none →
      df.encode_binary name t f = .error .valueError ∧
      (df.encodeBinaryInPlace name t f).2 = df) ∧
    (∀ col, df.findCol name = some col →
      ((∀ v ∈ col.values, v = .str t ∨ v = .str f) →
        df.encode_binary name t f = .ok ⟨df.columns.map (fun c =>
          if c.name = name then
            ⟨c.name, .numeric,
              col.values.map (fun v => if v = .str t then .num 1 else .num 0)⟩
          else c)⟩) ∧
      ((∃ v ∈ col.values, v ≠ .str t ∧ v ≠ .str f) →
        df.encode_binary name t f = .error .runtimeError ∧
        (df.encodeBinaryInPlace name t f).2 = df)) := by
  constructor
  · intro h
    have he : df.encode_binary name t f = .error .valueError := by
      unfold DataFrame.encode_binary
      rw [h]
    refine ⟨he, ?_⟩
    unfold DataFrame.encodeBinaryInPlace
    rw [he]
  · intro col hcol
    constructor
    · intro hall
      simp only [DataFrame.encode_binary, hcol]
      rw [encodeList_ok t f col.values hall]
    · intro hbad
      have he : df.encode_binary name t f = .error .runtimeError := by
        simp only [DataFrame.encode_binary, hcol]
        rw [encodeList_err t f col.values hbad]
      refine ⟨he, ?_⟩
      unfold DataFrame.encodeBinaryInPlace
      rw [he]

/-- The gender column of the encode_binary test instance. -/
def c6GenderCol : Column := ⟨"Gender", .categorical, [.str "Male", .str "Female"]⟩

/-- A two-column DataFrame as built by test_dataframe_encode_binary. -/
def c6Df : DataFrame := ⟨[⟨"ID", .numeric, [.num 1, .num 2]⟩, c6GenderCol]⟩

/-- C6 witness: encoding the concrete gender column with labels Male and
Female succeeds with the mapped numeric column. -/
theorem C6_encode_binary_witness :
    c6Df.encode_binary "Gender" "Male" "Female" =
      .ok ⟨c6Df.columns.map (fun c =>
        if c.name = "Gender" then
          ⟨c.name, .numeric, c6GenderCol.values.map
            (fun v => if v = .str "Male" then .num 1 else .num 0)⟩
        else c)⟩ :=
  ((C6_encode_binary c6Df "Gender" "Male" "Female").2 c6GenderCol rfl).1
    (by decide)

/-- C7: for a well-formed DataFrame and a list of existing all-numeric
column names, `to_matrix` succeeds with a `(rows, len(names))` Matrix
whose `(i, j)` entry equals `at(i, names[j])`; any absent name fails
KeyNotFound (surfaced by this operation as Python IndexError per the
tests), and an argument that is not an ordered sequence of strings
fails InvalidArgument (Python TypeError). -/
theorem C7_to_matrix (df : DataFrame) (names : List String) :
    (df.Wf →
      (∀ n ∈ names, ∃ c, df.findCol n = some c ∧
        ∀ v ∈ c.values, ∃ q, v = .num q) →
      ∃ M, df.to_matrix names = .ok M ∧ M.rows = df.rowCount ∧
        M.cols = names.length ∧
        ∀ i j, i < df.rowCount → j < names.length →
          df.at' i (names.getD j "") = .ok (.num (M.atIdx i j))) ∧
    ((∃ n ∈ names, df.findCol n = none) →
      df.to_matrix names = .error .indexError) ∧
    (∀ q, df.toMatrixArg (.pyNum q) = .error .typeError) ∧
    (∀ s, df.toMatrixArg (.pyStr s) = .error .typeError) ∧
    (∀ es, asStrList es = none →
      df.toMatrixArg (.pyList es) = .error .typeError) := by
  refine ⟨?_, ?_, fun q => rfl, fun s => rfl, ?_⟩
  · intro hwf hn
    obtain ⟨cols, hl1, hl2, hl3⟩ := lookupCols_ok df names
      (fun n hn2 => (hn n hn2).imp fun c hc => hc.1)
    have hcolsnum : ∀ c ∈ cols, ∀ v ∈ c.values, ∃ q, v = .num q := by
      intro c hc
      obtain ⟨j, hj, hcj⟩ := List.getElem_of_mem hc
      have hj2 : j < names.length := by omega
      have hgd : names.getD j "" = names[j] := by
        rw [List.getD_eq_getElem?_getD, List.getElem?_eq_getElem hj2]
        rfl
      have hmem : names.getD j "" ∈ names := by
        rw [hgd]
        exact List.getElem_mem hj2
      obtain ⟨c2, hc2, hnum⟩ := hn _ hmem
      have hcd : cols.getD j defCol = c := by
        rw [List.getD_eq_getElem?_getD, List.getElem?_eq_getElem hj, hcj]
        rfl
      have hfc := hl3 j hj2
      rw [hcd, hc2] at hfc
      exact (Option.some.inj hfc) ▸ hnum
    obtain ⟨colsQ, ha1, ha2, ha3⟩ := allNums_ok cols hcolsnum
    refine ⟨⟨df.rowCount, names.length,
      (List.range (df.rowCount * names.length)).map
        (fun p => (colsQ.getD (p % names.length) []).getD
          (p / names.length) 0)⟩, ?_, rfl, rfl, ?_⟩
    · simp only [DataFrame.to_matrix, hl1]
      rw [ha1]
    · intro i j hi hj
      have hfind := hl3 j hj
      have hcmem : cols.getD j defCol ∈ df.columns :=
        List.mem_of_find?_eq_some hfind
      have hclen : (cols.getD j defCol).values.length = df.rowCount :=
        hwf _ hcmem
      simp only [DataFrame.at', hfind]
      rw [if_pos (show i < (cols.getD j defCol).values.length by omega)]
      have hidx := mapRange_atIdx df.rowCount names.length
        (fun p => (colsQ.getD (p % names.length) []).getD
          (p / names.length) 0) i j hi hj
      rw [hidx]
      show Except.ok ((cols.getD j defCol).values.getD i (.num 0)) =
        Except.ok (Value.num
          ((colsQ.getD ((i * names.length + j) % names.length) []).getD
            ((i * names.length + j) / names.length) 0))
      rw [encode_mod names.length j i hj, encode_div names.length j i hj,
        ha3 j (by omega) i (by omega)]
  · intro h
    unfold DataFrame.to_matrix
    rw [lookupCols_err df names h]
  · intro es h
    show (match asStrList es with
      | some names => df.to_matrix names
      | none => Except.error PyErr.typeError) = Except.error PyErr.typeError
    rw [h]

/-- A well-formed two-column all-numeric DataFrame. -/
def c7Df : DataFrame :=
  ⟨[⟨"ID", .numeric, [.num 1, .num 2]⟩, ⟨"X", .numeric, [.num 3, .num 4]⟩]⟩

/-- C7 witness: converting the two numeric columns of a concrete
DataFrame succeeds with matching entries. -/
theorem C7_to_matrix_witness :
    ∃ M, c7Df.to_matrix ["ID", "X"] = .ok M ∧ M.rows = c7Df.rowCount ∧
      M.cols = (["ID", "X"] : List String).length ∧
      ∀ i j, i < c7Df.rowCount → j < (["ID", "X"] : List String).length →
        c7Df.at' i ((["ID", "X"] : List String).getD j "") =
          .ok (.num (M.atIdx i j)) := by
  refine (C7_to_matrix c7Df ["ID", "X"]).1 ?_ ?_
  · intro c hc
    have hc2 : c = (⟨"ID", .numeric, [.num 1, .num 2]⟩ : Column) ∨
        c = (⟨"X", .numeric, [.num 3, .num 4]⟩ : Column) := by
      simpa [c7Df] using hc
    rcases hc2 with rfl | rfl
    · rfl
    · rfl
  intro n hn
  have hn2 : n = "ID" ∨ n = "X" := by simpa using hn
  rcases hn2 with rfl | rfl
  · refine ⟨⟨"ID", .numeric, [.num 1, .num 2]⟩, rfl, ?_⟩
    intro v hv
    have hv2 : v = Value.num 1 ∨ v = Value.num 2 := by simpa using hv
    rcases hv2 with rfl | rfl
    · exact ⟨1, rfl⟩
    · exact ⟨2, rfl⟩
  · refine ⟨⟨"X", .numeric, [.num 3, .num 4]⟩, rfl, ?_⟩
    intro v hv
    have hv2 : v = Value.num 3 ∨ v = Value.num 4 := by simpa using hv
    rcases hv2 with rfl | rfl
    · exact ⟨3, rfl⟩
    · exact ⟨4, rfl⟩

/-- C10: referencing an absent column name fails with Python ValueError
from drop_column, filter and encode_binary, but with Python IndexError
from to_matrix — the spec's single KeyNotFound kind surfaces as two
different exception types depending on the operation. -/
theorem C10_absent_column_exceptions (df : DataFrame) (name : String)
    (pred : Value → Bool) (t f : String) (h : df.findCol name = none) :
    df.drop_column name = .error .valueError ∧
    df.filter name pred = .error .valueError ∧
    df.encode_binary name t f = .error .valueError ∧
    df.to_matrix [name] = .error .indexError ∧
    PyErr.valueError ≠ PyErr.indexError := by
  refine ⟨?_, ?_, ?_, ?_, by decide⟩
  · unfold DataFrame.drop_column
    rw [h]
  · unfold DataFrame.filter
    rw [h]
  · unfold DataFrame.encode_binary
    rw [h]
  · unfold DataFrame.to_matrix
    rw [lookupCols_err df [name] ⟨name, by simp, h⟩]

/-- C10 witness: the absent name Hello on a concrete DataFrame. -/
theorem C10_absent_column_exceptions_witness :
    c7Df.drop_column "Hello" = .error .valueError ∧
    c7Df.filter "Hello" (fun _ => true) = .error .valueError ∧
    c7Df.encode_binary "Hello" "a" "b" = .error .valueError ∧
    c7Df.to_matrix ["Hello"] = .error .indexError ∧
    PyErr.valueError ≠ PyErr.indexError :=
  C10_absent_column_exceptions c7Df "Hello" (fun _ => true) "a" "b" rfl

end Daedalus
